import Mathlib

set_option maxRecDepth 10000
set_option synthInstance.maxHeartbeats 1000000

/-!
Verification development for the aqua web framework (Deno/TypeScript).

The file shallowly embeds the routing, parameter-extraction, body-parsing,
schema-validation and response-building code of the repository in Lean.
JavaScript strings are modelled as lists of characters; the handful of
regular expressions the source uses are modelled by a small backtracking
matcher whose items mirror the concrete regex atoms appearing in the
source (literal runs, character classes with greedy/lazy quantifiers,
lookahead, end anchor).  All definitions are executable so that concrete
request scenarios can be evaluated inside proofs.
-/

namespace Aqua

/-- JavaScript strings are modelled as lists of characters. -/
abbrev Str := List Char

/-- Coerce a Lean string literal to the character-list model. -/
def str (s : String) : Str := s.data

/-- Character class: word characters, as in the source regex [a-zA-Z0-9_]. -/
def isWordChar (c : Char) : Bool := c.isAlpha || c.isDigit || c == '_'

/-- Character class: ASCII letters, as in the source regex [a-zA-Z]. -/
def isAlphaChar (c : Char) : Bool := c.isAlpha

/-- Character class: line terminators, as in the source regex (\n|\r). -/
def isNlChar (c : Char) : Bool := c == '\n' || c == '\r'

/-- Character class of the regex dot (any character except line terminators). -/
def isDotChar (c : Char) : Bool := !(c == '\n' || c == '\r')

/-- Character class of the alternation (\n|\r|.), which covers every character. -/
def isAnyChar (_ : Char) : Bool := true

/-- Character class of the source regex [^/]. -/
def isNonSlash (c : Char) : Bool := c != '/'

/-- JavaScript whitespace characters relevant to ASCII input (the \s class
and the trimStart / trimLeft whitespace set restricted to ASCII). -/
def isJsSpace (c : Char) : Bool :=
  c == ' ' || c == '\t' || c == '\n' || c == '\r' ||
  c == Char.ofNat 11 || c == Char.ofNat 12

/-- Model of String.prototype.trimStart (the source calls trimLeft). -/
def jsTrimStart (s : Str) : Str := s.dropWhile isJsSpace

/-- Model of String.prototype.trimEnd. -/
def jsTrimEnd (s : Str) : Str := (s.reverse.dropWhile isJsSpace).reverse

/-- Model of String.prototype.trim. -/
def jsTrim (s : Str) : Str := jsTrimEnd (jsTrimStart s)

/-- Quantifier of a regex character-class atom. -/
inductive Quant where
  | one
  | starGreedy
  | starLazy
  | plusGreedy
deriving Repr

/-- Items of the regex fragments used by the source: literal character runs,
a character class with a quantifier, a lookahead over alternatives, and the
end anchor. -/
inductive RItem where
  | lit (s : Str)
  | cls (p : Char → Bool) (q : Quant)
  | look (alts : List (List RItem))
  | alt2 (a b : List RItem)
  | endA

/-- Maximal length of the prefix of a string all of whose characters satisfy
a class predicate. -/
def runLen (p : Char → Bool) : Str → Nat
  | [] => 0
  | c :: rest => if p c then runLen p rest + 1 else 0

/-- Backtracking matcher: number of characters a pattern consumes from the
front of the string, trying candidates in JavaScript order (greedy stars
longest-first, lazy stars shortest-first) and returning the first success.
The fuel argument bounds recursion depth; every recursive call moves to a
structurally smaller pattern, so any fuel exceeding the total number of
pattern items (nested lookahead items included) is sufficient, and all
patterns in this file have fewer than 64 items. -/
def matchLen : Nat → List RItem → Str → Option Nat
  | 0, _, _ => none
  | _ + 1, [], _ => some 0
  | fuel + 1, it :: ps, s =>
    match it with
    | .lit l =>
        if l.isPrefixOf s then (matchLen fuel ps (s.drop l.length)).map (· + l.length)
        else none
    | .cls p q =>
        let tryK : Nat → Option Nat := fun k => (matchLen fuel ps (s.drop k)).map (· + k)
        match q with
        | .one =>
            match s with
            | [] => none
            | c :: rest => if p c then (matchLen fuel ps rest).map (· + 1) else none
        | .starGreedy => ((List.range (runLen p s + 1)).reverse).findSome? tryK
        | .starLazy => (List.range (runLen p s + 1)).findSome? tryK
        | .plusGreedy => (((List.range (runLen p s)).map (· + 1)).reverse).findSome? tryK
    | .look alts =>
        if alts.any (fun sub => (matchLen fuel sub s).isSome) then matchLen fuel ps s
        else none
    | .alt2 a b =>
        match matchLen fuel (a ++ ps) s with
        | some n => some n
        | none => matchLen fuel (b ++ ps) s
    | .endA => if s.isEmpty then matchLen fuel ps s else none

/-- Fuel passed to the matcher; ample for every pattern in this file. -/
def engineFuel : Nat := 64

/-- Leftmost match of a pattern: start index and length, scanning start
positions left to right as a JavaScript regex does. -/
def jsSearchAux (pat : List RItem) (i : Nat) : Str → Option (Nat × Nat)
  | [] => (matchLen engineFuel pat []).map (fun l => (i, l))
  | c :: rest =>
      match matchLen engineFuel pat (c :: rest) with
      | some l => some (i, l)
      | none => jsSearchAux pat (i + 1) rest

/-- Leftmost match of a pattern in a string. -/
def jsSearch (pat : List RItem) (s : Str) : Option (Nat × Nat) :=
  jsSearchAux pat 0 s

/-- Model of RegExp.prototype.test. -/
def jsTest (pat : List RItem) (s : Str) : Bool := (jsSearch pat s).isSome

/-- Model of String.prototype.replace with a non-global regex: replace the
leftmost match by the replacement string. -/
def jsReplaceFirst (pat : List RItem) (rep : Str) (s : Str) : Str :=
  match jsSearch pat s with
  | some (i, l) => s.take i ++ rep ++ s.drop (i + l)
  | none => s

/-- Substring of the leftmost match, as returned in slot 0 of a non-global
String.prototype.match call (none when there is no match). -/
def jsMatchFirst (pat : List RItem) (s : Str) : Option Str :=
  (jsSearch pat s).map (fun il => (s.drop il.1).take il.2)

/-- Model of String.prototype.match with the g flag: the list of successive
non-overlapping leftmost matches.  The fuel bounds the number of matches;
none of the global patterns used by the source can match the empty string,
so a fuel of length + 1 captures every match. -/
def jsMatchAllAux (pat : List RItem) : Nat → Str → List Str
  | 0, _ => []
  | fuel + 1, s =>
      match jsSearch pat s with
      | none => []
      | some (i, l) =>
          ((s.drop i).take l) :: jsMatchAllAux pat fuel (s.drop (i + (if l = 0 then 1 else l)))

/-- Model of String.prototype.match with the g flag. -/
def jsMatchAll (pat : List RItem) (s : Str) : List Str :=
  jsMatchAllAux pat (s.length + 1) s

/-- First index at which a literal substring occurs. -/
def strFind (sub : Str) : Str → Option Nat
  | [] => if sub.isEmpty then some 0 else none
  | c :: rest =>
      if sub.isPrefixOf (c :: rest) then some 0
      else (strFind sub rest).map (· + 1)

/-- Whether a literal substring occurs (String.prototype.includes). -/
def strIncludes (sub : Str) (s : Str) : Bool := (strFind sub s).isSome

/-- Model of String.prototype.split with a non-empty literal separator; the
fuel decreases on every emitted piece and length + 1 always suffices. -/
def jsSplitAux (sep : Str) : Nat → Str → List Str
  | 0, s => [s]
  | fuel + 1, s =>
      match strFind sep s with
      | none => [s]
      | some i => s.take i :: jsSplitAux sep fuel (s.drop (i + sep.length))

/-- Model of String.prototype.split with a literal separator string. -/
def jsSplitOnStr (sep : Str) (s : Str) : List Str :=
  jsSplitAux sep (s.length + 1) s

/-- Lookup in a JavaScript-object model (insertion-ordered association list). -/
def objGet {V : Type} (o : List (Str × V)) (k : Str) : Option V :=
  (o.find? (fun kv => kv.1 == k)).map (fun kv => kv.2)

/-- Assignment in a JavaScript-object model: an existing key keeps its
position and gets the new value, a fresh key is appended. -/
def objUpsert {V : Type} (o : List (Str × V)) (k : Str) (v : V) : List (Str × V) :=
  if o.any (fun kv => kv.1 == k) then
    o.map (fun kv => if kv.1 == k then (k, v) else kv)
  else o ++ [(k, v)]

/-- Insertion that keeps an already-present key's old value, modelling the
spread pattern where the existing entries are spread last and therefore win. -/
def objInsertKeepOld {V : Type} (o : List (Str × V)) (k : Str) (v : V) : List (Str × V) :=
  if o.any (fun kv => kv.1 == k) then o else o ++ [(k, v)]

/-- Lowercase an ASCII header name, as the Headers class normalizes names. -/
def lowerStr (s : Str) : Str := s.map Char.toLower

/-- Headers are modelled as an append-ordered list of lowercased-name/value
pairs; append never removes an existing entry. -/
def headersAppend (hs : List (Str × Str)) (n v : Str) : List (Str × Str) :=
  hs ++ [(lowerStr n, v)]

/-- Model of constructing a Headers object from a header record: each entry
is appended in order with its name lowercased. -/
def headersOfInit (init : List (Str × Str)) : List (Str × Str) :=
  init.foldl (fun acc nv => headersAppend acc nv.1 nv.2) []

/-- Model of Headers.prototype.get: case-insensitive, all values for the
name joined with a comma-space, null (none) when the name is absent. -/
def headersGet (hs : List (Str × Str)) (n : Str) : Option Str :=
  match (hs.filter (fun kv => kv.1 == lowerStr n)).map (fun kv => kv.2) with
  | [] => none
  | v :: vs => some (vs.foldl (fun acc w => acc ++ str ", " ++ w) v)

/-- Truthiness of a JavaScript string-or-undefined value: undefined and the
empty string are falsy. -/
def strTruthy : Option Str → Bool
  | none => false
  | some s => !s.isEmpty

/-- Truthiness of a JavaScript number-or-undefined status code followed by
a numeric default, modelling the pattern value-or-else-default where 0 and
undefined both fall back. -/
def jsOrElseNat : Option Nat → Nat → Nat
  | none, d => d
  | some n, d => if n = 0 then d else n

/-! Route table and URL parameter binder, embedded from src/aqua.ts
(RouteContext.route, Aqua.connectURLParameters, Aqua.handleRequestWithContext,
Aqua.respondToRequest) and src/router.ts lines 3 to 40. -/

/-- Source regex /:([a-zA-Z0-9_]*)/ used with the g flag to enumerate the
parameter tokens of a route template. -/
def paramTokenPat : List RItem := [.lit (str ":"), .cls isWordChar .starGreedy]

/-- Source regex /:[a-zA-Z]/ that decides whether a registered path uses URL
parameters. -/
def paramAlphaTestPat : List RItem := [.lit (str ":"), .cls isAlphaChar .one]

/-- Source regex /([^\/]*)/ whose first global match is taken as a parameter
value. -/
def nonSlashStarPat : List RItem := [.cls isNonSlash .starGreedy]

/-- Source regex /(\?(.*))|(\#(.*))/ used by Router.parseRequestPath. -/
def queryHashPat : List RItem :=
  [.alt2 [.lit (str "?"), .cls isDotChar .starGreedy]
         [.lit (str "#"), .cls isDotChar .starGreedy]]

/-- Prepend a literal character to a pattern, merging adjacent literals. -/
def consLit (c : Char) : List RItem → List RItem
  | .lit l :: ps => .lit (c :: l) :: ps
  | ps => .lit [c] :: ps

/-- Compiled route matcher: the result of replacing every token of the form
colon-plus-word-run by the capture ([^/]*) (source regex replacement
path.replace with /:([a-zA-Z0-9_]*)/g) and reading the remaining characters
of the path literally, exactly as new RegExp does on a path that contains no
other regex metacharacters. -/
def compileParamAux : Nat → Str → List RItem
  | 0, _ => []
  | _ + 1, [] => []
  | fuel + 1, c :: rest =>
      if c = ':' then
        .cls isNonSlash .starGreedy :: compileParamAux fuel (rest.drop (runLen isWordChar rest))
      else consLit c (compileParamAux fuel rest)

/-- Compilation entry point; the fuel decreases on every consumed character
so the input length plus one always suffices. -/
def compileParamMatcher (s : Str) : List RItem := compileParamAux (s.length + 1) s

/-- Matcher built by connectURLParameters for the template prefix before one
parameter token: only the first colon-plus-word-run token is replaced by the
lazy wildcard (the source replaces with the non-global /:([a-zA-Z0-9_]*)/,
substituting the two regex characters dot-star-question), every later token
is kept as literal text. -/
def compileTailMatcher : Str → List RItem
  | [] => []
  | c :: rest =>
      if c = ':' then
        .cls isDotChar .starLazy ::
          (if (rest.drop (runLen isWordChar rest)).isEmpty then []
           else [.lit (rest.drop (runLen isWordChar rest))])
      else consLit c (compileTailMatcher rest)

/-- Routes whose usesURLParameters flag is false have no compiled matcher;
replacing with the undefined matcher coerces it to the literal string
undefined, which is what String.prototype.replace does with a non-regex
argument. -/
def routeMatcherPat (m : Option (List RItem)) : List RItem :=
  m.getD [.lit (str "undefined")]

/-- String route record of src/aqua.ts; the response handler is abstracted
to a numeric identifier since dispatch only selects it. -/
structure StringRoute where
  path : Str
  usesURLParameters : Bool
  urlParameterRegex : Option (List RItem)
  handlerId : Nat

/-- Regex route record of src/aqua.ts: note that registration stores only
the pattern and the handler, no method. -/
structure RegexRoute where
  pat : List RItem
  handlerId : Nat

/-- Static route record of src/aqua.ts. -/
structure StaticRoute where
  folder : Str
  path : Str
  handlerId : Nat

/-- Route table fields of RouteContext in src/aqua.ts. -/
structure RouteContext where
  routes : List (Str × StringRoute) := []
  regexRoutes : List RegexRoute := []
  staticRoutes : List StaticRoute := []

/-- Embedding of RouteContext.route for a string path (src/aqua.ts lines 183
to 211, with the default empty options and no trailing-slash rewriting): an
error is raised when the path does not start with a slash, otherwise the
route object is stored under the key method-plus-path, silently overwriting
any previous entry under the same key. -/
def routeContextRoute (ctx : RouteContext) (path method : Str) (hId : Nat) :
    Except Str RouteContext :=
  if !(str "/").isPrefixOf path then .error (str "Routes must start with a slash")
  else
    let uses := jsTest paramAlphaTestPat path
    .ok { ctx with
      routes := objUpsert ctx.routes (method ++ path)
        { path := path
          usesURLParameters := uses
          urlParameterRegex := if uses then some (compileParamMatcher path) else none
          handlerId := hId } }

/-- Embedding of RouteContext.route for a RegExp path: the pair is pushed
onto regexRoutes and neither the method nor the options are recorded. -/
def routeContextRouteRegex (ctx : RouteContext) (pat : List RItem) (hId : Nat) :
    RouteContext :=
  { ctx with regexRoutes := ctx.regexRoutes ++ [{ pat := pat, handlerId := hId }] }

/-- Embedding of Aqua.connectURLParameters (src/aqua.ts lines 451 to 487):
walk the template's parameter tokens; for each token take the template
prefix before its first occurrence, replace that prefix's first token by the
lazy wildcard, strip the leftmost match of the resulting pattern from the
current requested path, and capture the leading non-slash run of what
remains as the parameter value. -/
def connectURLParameters (templatePath requestedPath : Str) : List (Str × Str) :=
  ((jsMatchAll paramTokenPat templatePath).foldl
    (fun st tok =>
      let urlParameter := jsReplaceFirst [.lit (str ":")] [] tok
      let partTillParameter := (jsSplitOnStr tok templatePath).headD []
      let urlParameterValue :=
        (jsMatchFirst nonSlashStarPat
          (jsReplaceFirst (compileTailMatcher partTillParameter) [] st.2)).getD []
      let currentRequestedPath := jsReplaceFirst paramTokenPat [] st.2
      (objUpsert st.1 urlParameter urlParameterValue, currentRequestedPath))
    (([] : List (Str × Str)), requestedPath)).1

/-- Embedding of Router.findRouteWithMatchingURLParameters (src/router.ts
lines 8 to 21): the first registered key containing a colon whose compiled
matcher leaves zero remainder after being removed from the requested path;
the request method plays no role in the predicate. -/
def findRouteWithMatchingURLParameters (routes : List (Str × StringRoute))
    (requestedPath : Str) : Option StringRoute :=
  let foundKey := (routes.find? (fun kv =>
      strIncludes (str ":") kv.1 &&
      (jsReplaceFirst (routeMatcherPat kv.2.urlParameterRegex) [] requestedPath).isEmpty)).map
      (fun kv => kv.1)
  objGet routes (foundKey.getD [])

/-- Embedding of Router.findMatchingRegexRoute (src/router.ts lines 23 to
30): first pushed regex route whose pattern consumes the requested path with
zero remainder; again no method is consulted. -/
def findMatchingRegexRoute (regexRoutes : List RegexRoute) (requestedPath : Str) :
    Option RegexRoute :=
  regexRoutes.find? (fun r => (jsReplaceFirst r.pat [] requestedPath).isEmpty)

/-- Embedding of Router.findMatchingStaticRoute (src/router.ts lines 32 to
39). -/
def findMatchingStaticRoute (staticRoutes : List StaticRoute) (requestedPath : Str) :
    Option StaticRoute :=
  staticRoutes.find? (fun r => r.path.isPrefixOf requestedPath)

/-- Embedding of Router.parseRequestPath. -/
def parseRequestPath (url : Str) : Str := jsReplaceFirst queryHashPat [] url

/-- Which route a request was dispatched to. -/
inductive Dispatched where
  | exact (r : StringRoute)
  | param (r : StringRoute)
  | regex (r : RegexRoute)
  | static (r : StaticRoute)

/-- Numeric handler identifier of a dispatch result, used to state concrete
dispatch facts without comparing function-valued records. -/
def Dispatched.handlerId : Dispatched → Nat
  | .exact r => r.handlerId
  | .param r => r.handlerId
  | .regex r => r.handlerId
  | .static r => r.handlerId

/-- Stage tags for dispatch results: 0 exact, 1 parameterized, 2 regex,
3 static. -/
def Dispatched.stage : Dispatched → Nat
  | .exact _ => 0
  | .param _ => 1
  | .regex _ => 2
  | .static _ => 3

/-- Embedding of Aqua.handleRequestWithContext (src/aqua.ts lines 669 to
725), returning the route that respondToRequest is invoked with, or none
when the caller falls through to respondWithNoRouteFound. -/
def handleRequestWithContext (ctx : RouteContext) (method requestedPath : Str) :
    Option Dispatched :=
  match objGet ctx.routes (method ++ requestedPath) with
  | some r => some (.exact r)
  | none =>
    match findRouteWithMatchingURLParameters ctx.routes requestedPath with
    | some r => some (.param r)
    | none =>
      match findMatchingRegexRoute ctx.regexRoutes requestedPath with
      | some r => some (.regex r)
      | none =>
        if method = str "GET" then
          (findMatchingStaticRoute ctx.staticRoutes requestedPath).map .static
        else none

/-- Result of a schema validation function as seen by the synchronous caller
in src/aqua.ts: either an actual boolean, or a Promise object carrying the
value it would resolve to. -/
inductive SchemaVal where
  | bool (b : Bool)
  | promise (resolved : Bool)

/-- Truthiness of a validation function's return value: a Promise object is
always truthy regardless of its resolved value. -/
def schemaValTruthy : SchemaVal → Bool
  | .bool b => b
  | .promise _ => true

/-- Embedding of the schema loop of Aqua.respondToRequest (src/aqua.ts lines
580 to 603): every validation function of every scoped key must return a
truthy value, and the loop breaks out on the first falsy one.  The functions
are represented by their already-computed return values. -/
def validateSchema (schema : List (List SchemaVal)) : Bool :=
  schema.all (fun fns => fns.all schemaValTruthy)

/-- Outcome of Aqua.respondToRequest for the purposes of the claims: either
the fallback path (respondWithNoRouteFound) or the invocation of the route's
handler with the connected parameters. -/
inductive Outcome where
  | fallback
  | handler (parameters : List (Str × Str))
deriving Repr, DecidableEq

/-- Embedding of the routing decisions of Aqua.respondToRequest (src/aqua.ts
lines 555 to 628): parameters are connected only when the caller passed
usesURLParameters, an empty connected value sends the request to the
fallback, then a present schema that fails validation does the same, and
otherwise the handler runs. -/
def respondToRequest (route : StringRoute) (usesURLParameters : Bool)
    (schema : Option (List (List SchemaVal))) (requestedPath : Str) : Outcome :=
  let parameters :=
    if usesURLParameters then connectURLParameters route.path requestedPath else []
  if usesURLParameters && parameters.any (fun kv => kv.2.isEmpty) then .fallback
  else
    match schema with
    | some sch => if validateSchema sch then .handler parameters else .fallback
    | none => .handler parameters

/-! Body parser, embedded from the parseBody function shared by src/aqua.ts
lines 317 to 424 and src/helpers/conversion.ts lines 69 to 164.  The byte
buffer is modelled as its list of characters; all concrete bodies evaluated
in this file are ASCII, for which the TextDecoder and TextEncoder round
trips of the source are the identity. -/

/-- JSON values, as in the Json type of src/shared.ts. -/
inductive Json where
  | null
  | bool (b : Bool)
  | num (n : Int)
  | str (s : Str)
  | arr (xs : List Json)
  | obj (fields : List (Str × Json))

/-- Skip JSON insignificant whitespace. -/
def jsonWs (s : Str) : Str :=
  s.dropWhile (fun c => c == ' ' || c == '\t' || c == '\n' || c == '\r')

/-- Scan a JSON string literal after its opening quote, handling the quote
and backslash escapes (sufficient for every input in this file). -/
def jsonStrLit : Str → Option (Str × Str)
  | [] => none
  | '"' :: rest => some ([], rest)
  | '\\' :: c :: rest =>
      let d : Option Char :=
        if c = '"' then some '"'
        else if c = '\\' then some '\\'
        else if c = '/' then some '/'
        else if c = 'n' then some '\n'
        else if c = 'r' then some '\r'
        else if c = 't' then some '\t'
        else none
      match d with
      | some ch => (jsonStrLit rest).map (fun p => (ch :: p.1, p.2))
      | none => none
  | c :: rest => (jsonStrLit rest).map (fun p => (c :: p.1, p.2))

/-- Parse an optionally signed integer literal; fractional and exponent
forms are not modelled (no input in this file contains them). -/
def jsonNumLit (s : Str) : Option (Int × Str) :=
  let core : Str → Option (Nat × Str) := fun t =>
    let digits := t.takeWhile Char.isDigit
    if digits.isEmpty then none
    else
      let rest := t.drop digits.length
      match rest with
      | '.' :: _ => none
      | 'e' :: _ => none
      | 'E' :: _ => none
      | _ => some (digits.foldl (fun acc c => acc * 10 + (c.toNat - 48)) 0, rest)
  match s with
  | '-' :: t => (core t).map (fun p => (-(p.1 : Int), p.2))
  | t => (core t).map (fun p => ((p.1 : Int), p.2))

mutual

/-- Recursive-descent JSON value parser modelling JSON.parse; fuel bounds
the recursion depth and any fuel above twice the input length suffices. -/
def jsonVal : Nat → Str → Option (Json × Str)
  | 0, _ => none
  | fuel + 1, s0 =>
    match jsonWs s0 with
    | [] => none
    | '"' :: rest => (jsonStrLit rest).map (fun p => (Json.str p.1, p.2))
    | '{' :: rest =>
        (match jsonWs rest with
         | '}' :: r2 => some (Json.obj [], r2)
         | r1 => (jsonMembers fuel r1 []).map (fun p => (Json.obj p.1, p.2)))
    | '[' :: rest =>
        (match jsonWs rest with
         | ']' :: r2 => some (Json.arr [], r2)
         | r1 => (jsonElems fuel r1 []).map (fun p => (Json.arr p.1, p.2)))
    | 't' :: rest =>
        if (str "rue").isPrefixOf rest then some (Json.bool true, rest.drop 3) else none
    | 'f' :: rest =>
        if (str "alse").isPrefixOf rest then some (Json.bool false, rest.drop 4) else none
    | 'n' :: rest =>
        if (str "ull").isPrefixOf rest then some (Json.null, rest.drop 3) else none
    | t => (jsonNumLit t).map (fun p => (Json.num p.1, p.2))

/-- Parse the members of a JSON object after its opening brace; duplicate
keys resolve to the last occurrence as in JSON.parse. -/
def jsonMembers : Nat → Str → List (Str × Json) → Option (List (Str × Json) × Str)
  | 0, _, _ => none
  | fuel + 1, s, acc =>
    match jsonWs s with
    | '"' :: rest =>
        match jsonStrLit rest with
        | none => none
        | some (key, r1) =>
          match jsonWs r1 with
          | ':' :: r2 =>
            match jsonVal fuel r2 with
            | none => none
            | some (v, r3) =>
              (match jsonWs r3 with
               | ',' :: r4 => jsonMembers fuel r4 (objUpsert acc key v)
               | '}' :: r4 => some (objUpsert acc key v, r4)
               | _ => none)
          | _ => none
    | _ => none

/-- Parse the elements of a JSON array after its opening bracket. -/
def jsonElems : Nat → Str → List Json → Option (List Json × Str)
  | 0, _, _ => none
  | fuel + 1, s, acc =>
    match jsonVal fuel s with
    | none => none
    | some (v, r1) =>
      (match jsonWs r1 with
       | ',' :: r2 => jsonElems fuel r2 (acc ++ [v])
       | ']' :: r2 => some (acc ++ [v], r2)
       | _ => none)

end

/-- Model of JSON.parse: a value followed only by whitespace. -/
def jsonParse (s : Str) : Option Json :=
  match jsonVal (2 * s.length + 4) s with
  | some (v, rest) => if (jsonWs rest).isEmpty then some v else none
  | none => none

/-- Hexadecimal digit test for percent decoding. -/
def isHexChar (c : Char) : Bool :=
  c.isDigit || (c.toLower ≥ 'a' && c.toLower ≤ 'f')

/-- Percent-decode a URL-encoded component, with the plus-to-space
convention of URLSearchParams. -/
def pctDecode : Str → Str
  | [] => []
  | '+' :: rest => ' ' :: pctDecode rest
  | '%' :: a :: b :: rest =>
      if isHexChar a && isHexChar b then
        Char.ofNat (16 * (if a.isDigit then a.toNat - 48 else a.toLower.toNat - 87)
          + (if b.isDigit then b.toNat - 48 else b.toLower.toNat - 87)) :: pctDecode rest
      else '%' :: pctDecode (a :: b :: rest)
  | c :: rest => c :: pctDecode rest

/-- Model of Object.fromEntries applied to a URLSearchParams over the raw
body: ampersand-separated entries, the name before the first equals sign,
the value everything after it, both percent-decoded, with later duplicate
names overriding earlier ones. -/
def urlSearchParams (s : Str) : List (Str × Str) :=
  ((jsSplitOnStr (str "&") s).filter (fun e => !e.isEmpty)).foldl
    (fun acc e =>
      let k := e.takeWhile (fun c => c != '=')
      let v := if e.any (fun c => c == '=') then e.drop (k.length + 1) else []
      objUpsert acc (pctDecode k) (pctDecode v))
    []

/-- Source regex matching one file section of a multipart body, used with
the g flag: three dashes, a lazy any-character run, the text Content-Type,
the rest of that line, at least one line terminator, then a lazy run up to a
lookahead requiring a line terminator followed by two dashes, or the end of
the input. -/
def filesPat : List RItem :=
  [.lit (str "---"), .cls isAnyChar .starLazy, .lit (str "Content-Type"),
   .cls isDotChar .starGreedy, .cls isNlChar .plusGreedy, .cls isAnyChar .starLazy,
   .look [[.cls isNlChar .one, .lit (str "--")], [.endA]]]

/-- Source regex whose first match inside a file section is the unique
header string located in the byte buffer; identical to the file-section
regex without the trailing lookahead, so the trailing lazy run stays empty
and the match ends right after the blank line of the part header. -/
def uniquePat : List RItem :=
  [.lit (str "---"), .cls isAnyChar .starLazy, .lit (str "Content-Type"),
   .cls isDotChar .starGreedy, .cls isNlChar .plusGreedy, .cls isAnyChar .starLazy]

/-- Source regex matching one plain field of a multipart body, used with the
g and m flags. -/
def fieldPat : List RItem :=
  [.lit (str "name=\""), .cls isDotChar .starLazy, .lit (str "\""),
   .cls isJsSpace .starGreedy, .cls isDotChar .starGreedy, .cls isJsSpace .starGreedy,
   .lit (str "---")]

/-- Source regex extracting a field's value: a lazy run up to a lookahead of
whitespace followed by three dashes. -/
def valueCorePat : List RItem :=
  [.cls isDotChar .starLazy, .look [[.cls isJsSpace .starGreedy, .lit (str "---")]]]

/-- Capture group of an exec of a pattern literal-prefix, lazy run, literal
suffix: the matched text with the two literals stripped. -/
def execGroup1Lazy (pre suf : Str) (s : Str) : Option Str :=
  (jsMatchFirst [.lit pre, .cls isDotChar .starLazy, .lit suf] s).map
    (fun m => (m.drop pre.length).take (m.length - pre.length - suf.length))

/-- Capture group of an exec of a pattern literal-prefix then greedy dot
run: the matched text with the prefix stripped. -/
def execGroup1Greedy (pre : Str) (s : Str) : Option Str :=
  (jsMatchFirst [.lit pre, .cls isDotChar .starGreedy] s).map
    (fun m => m.drop pre.length)

/-- Uploaded file record as constructed by new File in the source. -/
structure JsFile where
  fileName : Str
  fileType : Str
  content : Str
deriving Repr, DecidableEq

/-- Size of a file, the byte length of its content slice. -/
def JsFile.size (f : JsFile) : Nat := f.content.length

/-- Byte scan for the start of a file's payload: the first occurrence of the
encoded unique header string, plus its length. -/
def scanStart (buffer uniqueString : Str) : Option Nat :=
  (strFind uniqueString buffer).map (fun i => i + uniqueString.length)

/-- Byte scan for the end of a file's payload: the first occurrence of four
dashes strictly after the start index, or the end of the buffer. -/
def scanEnd (buffer : Str) (start : Nat) : Nat :=
  match strFind (str "----") (buffer.drop (start + 1)) with
  | some j => start + 1 + j
  | none => buffer.length

/-- Embedding of the files reduction of parseBody: for every match of the
file-section regex, extract filename, content type and field name, locate
the unique header string in the buffer, and slice from after it to the next
four-dash sequence; an existing field name keeps its earlier file because
the previous entries are spread last. -/
def parseBodyFiles (buffer : Str) : List (Str × JsFile) :=
  (jsMatchAll filesPat buffer).foldl
    (fun files fileString =>
      let fileName := execGroup1Lazy (str "filename=\"") (str "\"") fileString
      let fileType := (execGroup1Greedy (str "Content-Type: ") fileString).map jsTrim
      let name := execGroup1Lazy (str "name=\"") (str "\"") fileString
      if !(strTruthy fileName) || !(strTruthy name) then files
      else
        match jsMatchAll uniquePat fileString with
        | [] => files
        | uniqueString :: _ =>
          match scanStart buffer uniqueString with
          | none => files
          | some start =>
            let e := scanEnd buffer start
            let fileBuffer := (buffer.drop start).take (e - start)
            objInsertKeepOld files (name.getD [])
              { fileName := fileName.getD []
                fileType := fileType.getD []
                content := fileBuffer })
    []

/-- Embedding of the multipart plain-field reduction of parseBody: for every
match of the field regex, the name capture (skipped when absent or empty)
is bound to the match of the value regex on the field string, which can be
undefined. -/
def parseBodyFields (rawBody : Str) : List (Str × Option Str) :=
  (jsMatchAll fieldPat rawBody).foldl
    (fun fields field =>
      match execGroup1Lazy (str "name=\"") (str "\"") field with
      | none => fields
      | some nm =>
        if nm.isEmpty then fields
        else objUpsert fields nm (jsMatchFirst valueCorePat field))
    []

/-- Body field map of parseBody: JSON.parse when it succeeds, else the
multipart field reduction when the body contains a name marker, else
URL-encoded decoding.  An undefined field value is modelled as null. -/
def parseBodyFieldMap (rawBody : Str) : Json :=
  match jsonParse rawBody with
  | some j => j
  | none =>
    if strIncludes (str "name=\"") rawBody then
      Json.obj ((parseBodyFields rawBody).map
        (fun kv => (kv.1, match kv.2 with | some v => Json.str v | none => Json.null)))
    else
      Json.obj ((urlSearchParams rawBody).map (fun kv => (kv.1, Json.str kv.2)))

/-- String payload of a JSON value, for stating concrete field-map facts in
decidable form. -/
def Json.strField : Json → Option Str
  | .str s => some s
  | _ => none

/-- View of a JSON object as a list of fields with string payloads, for
stating concrete field-map facts in decidable form. -/
def Json.asStrObj : Json → Option (List (Str × Option Str))
  | .obj fs => some (fs.map (fun kv => (kv.1, Json.strField kv.2)))
  | _ => none

/-- Parsed body and files of a request. -/
structure ParsedBody where
  body : Json
  files : List (Str × JsFile)

/-- Embedding of parseBody on a raw buffer (src/helpers/conversion.ts lines
69 to 164): an empty decoded body short-circuits to two empty maps. -/
def parseBody (buffer : Str) : ParsedBody :=
  if buffer.isEmpty then { body := Json.obj [], files := [] }
  else { body := parseBodyFieldMap buffer, files := parseBodyFiles buffer }

/-- Embedding of the content-length guard wrapped around parseBody in
src/aqua.ts (lines 323 and 732 to 734): a request without a content length
never reaches the parser and yields two empty maps. -/
def parseBodyWithContentLength (contentLength : Nat) (buffer : Str) : ParsedBody :=
  if contentLength = 0 then { body := Json.obj [], files := [] }
  else parseBody buffer

/-! Cookie parsing and request cookie population, embedded from
Aqua.parseCookies (src/aqua.ts lines 434 to 449, identical in
src/helpers/conversion.ts lines 172 to 185) and the request construction in
Aqua.handleRequests (src/aqua.ts lines 735 to 750). -/

/-- Embedding of parseCookies: a missing or empty cookie header yields the
empty map; otherwise the header splits on semicolons, each entry's name is
the text before its first equals sign with leading whitespace trimmed, and
its value is the second field of the equals-sign split, undefined when the
entry contains no equals sign. -/
def parseCookies (rawCookieString : Option Str) : List (Str × Option Str) :=
  match rawCookieString with
  | none => []
  | some s =>
    if s.isEmpty then []
    else
      (jsSplitOnStr (str ";") s).foldl
        (fun cookies cookie =>
          objUpsert cookies (jsTrimStart ((jsSplitOnStr (str "=") cookie).headD []))
            ((jsSplitOnStr (str "=") cookie).get? 1))
        []

/-- Embedding of the cookies field of the Request record built in
handleRequests: parseCookies runs on the cookie header, but only when the
headers carry a truthy entry named cookies. -/
def requestCookies (headers : List (Str × Str)) : List (Str × Option Str) :=
  if strTruthy (headersGet headers (str "cookies")) then
    parseCookies (headersGet headers (str "cookie"))
  else []

/-! Response builder, embedded from Aqua.formatRawResponse (src/aqua.ts
lines 497 to 510), Aqua.convertResponseToServerResponse (lines 530 to 553),
Aqua.getFallbackHandlerResponse (lines 630 to 654) and
Aqua.respondWithNoRouteFound (lines 656 to 661). -/

/-- Content payload of a response: a string or a byte buffer. -/
inductive RawContent where
  | text (s : Str)
  | bytes (b : Str)
deriving Repr, DecidableEq

/-- Truthiness of an optional content payload: undefined and the empty
string are falsy, a byte buffer is always truthy. -/
def contentTruthy : Option RawContent → Bool
  | none => false
  | some (.text s) => !s.isEmpty
  | some (.bytes _) => true

/-- Structured response object of src/aqua.ts. -/
structure ResponseObj where
  statusCode : Option Nat := none
  headers : List (Str × Str) := []
  cookies : List (Str × Str) := []
  redirect : Option Str := none
  content : Option RawContent := none
deriving DecidableEq

/-- Raw return value of a response handler: a string, a byte buffer, a
structured response object, or a nullish value. -/
inductive RawResponse where
  | text (s : Str)
  | bytes (b : Str)
  | resp (r : ResponseObj)
  | nullish

/-- Embedding of Aqua.formatRawResponse: a string is wrapped with the
text-html content type header, a byte buffer is wrapped bare, anything else
is returned unchanged; a nullish handler return stays nullish, which the
caller detects by its falsiness. -/
def formatRawResponse : RawResponse → Option ResponseObj
  | .text s => some { headers := [(str "Content-Type", str "text/html; charset=UTF-8")]
                      content := some (.text s) }
  | .bytes b => some { content := some (.bytes b) }
  | .resp r => some r
  | .nullish => none

/-- Final wire-level response: status, headers and body. -/
structure ServerResponse where
  status : Nat
  headers : List (Str × Str)
  body : Option RawContent
deriving DecidableEq

/-- Embedding of Aqua.convertResponseToServerResponse: a Headers object is
built from the declared header record, one Set-Cookie entry is appended per
cookie key, a truthy redirect appends a Location header and raises the
default status to 301, and the final status falls back to 200. -/
def convertResponseToServerResponse (res : ResponseObj) : ServerResponse :=
  let headers0 := headersOfInit res.headers
  let headers1 := res.cookies.foldl
    (fun h nv => headersAppend h (str "Set-Cookie") (nv.1 ++ str "=" ++ nv.2)) headers0
  let headers2 :=
    if strTruthy res.redirect then headersAppend headers1 (str "Location") (res.redirect.getD [])
    else headers1
  let statusCode :=
    if strTruthy res.redirect then some (jsOrElseNat res.statusCode 301) else res.statusCode
  { status := jsOrElseNat statusCode 200
    headers := headers2
    body := res.content }

/-- Embedding of Aqua.getFallbackHandlerResponse, with the fallback
handler's raw return value abstracted as an optional input (none when no
fallback handler is configured). -/
def getFallbackHandlerResponse (fb : Option RawResponse) : ResponseObj :=
  match fb with
  | none => { statusCode := some 404, content := some (.text (str "Not found.")) }
  | some raw =>
    match formatRawResponse raw with
    | none => { statusCode := some 404, content := some (.text (str "Not found.")) }
    | some r =>
      let sc := if strTruthy r.redirect then 404 else jsOrElseNat r.statusCode 404
      { statusCode := some sc
        headers := r.headers
        content :=
          if contentTruthy r.content then r.content
          else some (.text (str "No fallback response content provided.")) }

/-- Embedding of Aqua.respondWithNoRouteFound: the fallback response is
converted and written out. -/
def respondWithNoRouteFound (fb : Option RawResponse) : ServerResponse :=
  convertResponseToServerResponse (getFallbackHandlerResponse fb)

end Aqua

namespace EarlyAqua

open Aqua (Str str objGet objUpsert)

/-- Registration outcome of the earliest Aqua.route (src/unnamed/part_004
lines 35 to 50): the routes table keyed by method-plus-path together with a
flag recording that the registration was rejected (console.warn or
console.error followed by an early return that leaves the table unchanged). -/
structure RegResult where
  routes : List (Str × Nat)
  errored : Bool

/-- Embedding of the earliest Aqua.route: a path without a leading slash is
rejected, a key that is already declared is rejected with an error and the
existing handler is kept, and otherwise the callback is stored. -/
def route (routes : List (Str × Nat)) (path method : Str) (cb : Nat) : RegResult :=
  if !(str "/").isPrefixOf path then { routes := routes, errored := true }
  else if (objGet routes (method ++ path)).isSome then { routes := routes, errored := true }
  else { routes := objUpsert routes (method ++ path) cb, errored := false }

end EarlyAqua

namespace InternalAqua

/-! Embedding of the step-pipeline engine of src/internal/aqua.ts: the
Branch respond loop (lines 70 to 89), createInternalEvent, handleRequest
and the try-catch of listen (lines 142 to 178). -/

open Aqua (Str str objGet)

/-- Wire response of the internal engine. -/
structure Resp where
  status : Nat
  body : Str

/-- Internalized event: the current response and the end flag. -/
structure Ev where
  response : Resp
  hasCalledEnd : Bool

/-- Result of awaiting one step on an event: the step threw or rejected, or
it finished, leaving the (possibly mutated) original event and an optional
returned event.  JavaScript aliasing is modelled by carrying both the event
as it stands after the call and the step's return value. -/
inductive StepRes where
  | threw (e : Str)
  | ret (after : Ev) (ret : Option Ev)

/-- Steps of a branch. -/
def Step := Ev → StepRes

/-- Embedding of getDefaultResponse. -/
def getDefaultResponse : Resp := { status := 404, body := str "Not found." }

/-- Embedding of createInternalEvent, with the response body abstracted to
the engine-relevant fields. -/
def createInternalEvent : Ev :=
  { response := getDefaultResponse, hasCalledEnd := false }

/-- Embedding of Branch respond: run the steps in order; after each step,
stop with the current event's response when end was called, otherwise adopt
the returned event when one was returned; a throw aborts the loop and
propagates. -/
def respond : List Step → Ev → Except Str Resp
  | [], ev => .ok ev.response
  | s :: rest, ev =>
    match s ev with
    | .threw e => .error e
    | .ret after r =>
      if after.hasCalledEnd then .ok after.response
      else respond rest (r.getD after)

/-- Embedding of Aqua.handleRequest: exact lookup of the uppercased method
concatenated with the parsed request path; a miss returns the event's
current (default) response. -/
def handleRequest (routes : List (Str × List Step)) (method url : Str) (ev : Ev) :
    Except Str Resp :=
  match objGet routes (method ++ Aqua.parseRequestPath url) with
  | none => .ok ev.response
  | some steps => respond steps ev

/-- Embedding of the serve callback in Aqua.listen: a throw or rejection
anywhere in handling is caught and becomes a 500 response whose body is the
stringified error. -/
def listenHandler (routes : List (Str × List Step)) (method url : Str) (ev : Ev) : Resp :=
  match handleRequest routes method url ev with
  | .ok r => r
  | .error e => { status := 500, body := e }

/-- Step that throws. -/
def throwingStep : Step := fun _ => .threw (Aqua.str "boom")

/-- Step that sets a response and calls end on the event it received. -/
def endingStep : Step := fun _ =>
  .ret { response := { status := 200, body := Aqua.str "done" }, hasCalledEnd := true } none

/-- Route table with a single route whose only step throws. -/
def c5Routes : List (Aqua.Str × List Step) := [(Aqua.str "GET/x", [throwingStep])]

end InternalAqua

namespace Aqua

/-! Concrete fixtures used to settle the claims, and the spec-side cookie
map the amended cookie claim is compared against. -/

/-- Cookie entry name as the amended cookie claim words it: the text before
the entry's first equals sign, with leading whitespace trimmed.  This
definition follows the claim's words, to be compared with parseCookies. -/
def cookieEntryName (e : Str) : Str := jsTrimStart (e.takeWhile (fun c => c != '='))

/-- Cookie entry value as the amended cookie claim words it: the text
between the first equals sign and the following equals sign or the end of
the entry, undefined when the entry has no equals sign.  This definition
follows the claim's words, to be compared with parseCookies. -/
def cookieEntryValue (e : Str) : Option Str :=
  if e.any (fun c => c == '=') then
    some (((e.dropWhile (fun c => c != '=')).drop 1).takeWhile (fun c => c != '='))
  else none

/-- Cookie map as the amended cookie claim words it: split the header on
semicolons and bind each entry's name to its value, later duplicates
overriding earlier ones. -/
def cookieMapSpec (s : Str) : List (Str × Option Str) :=
  (jsSplitOnStr (str ";") s).foldl
    (fun m e => objUpsert m (cookieEntryName e) (cookieEntryValue e)) []

/-- Unwrap a successful registration; fixtures below only register valid
paths. -/
def exceptCtx : Except Str RouteContext → RouteContext
  | .ok c => c
  | .error _ => {}

/-- Context whose only route is a parameterized route registered for POST. -/
def c1PostParamCtx : RouteContext :=
  exceptCtx (routeContextRoute {} (str "/hello/:name") (str "POST") 7)

/-- Context whose only route is an exact route registered for GET. -/
def c1WCtx : RouteContext := exceptCtx (routeContextRoute {} (str "/hi") (str "GET") 3)

/-- The exact route record stored by the registration in c1WCtx. -/
def c1WRoute : StringRoute :=
  { path := str "/hi", usesURLParameters := false, urlParameterRegex := none, handlerId := 3 }

/-- Route template of the repository's own multiple-parameter test. -/
def c2Template : Str := str "/api/:action/:action2/:testtest"

/-- Parameterized route as registered for the three-parameter template. -/
def c2Route : StringRoute :=
  { path := c2Template, usesURLParameters := true
    urlParameterRegex := some (compileParamMatcher c2Template), handlerId := 1 }

/-- JSON body of the body-parsing claim. -/
def c3JsonBody : Str := str "\x7b\"test\":\"hello\"\x7d"

/-- URL-encoded body of the body-parsing claim. -/
def c3UrlBody : Str := str "test=hello"

/-- Multipart body with one plain field named test carrying hello. -/
def c3FieldBody : Str :=
  str "----B\r\nContent-Disposition: form-data; name=\"test\"\r\n\r\nhello\r\n----B--\r\n"

/-- Multipart body with one file part named test whose payload is the five
bytes of hello, followed by the closing boundary. -/
def c3FileBody : Str :=
  str "----B\r\nContent-Disposition: form-data; name=\"test\"; filename=\"a\"\r\nContent-Type: text/plain\r\n\r\nhello\r\n----B--\r\n"

/-- Plain exact route used by the schema-validation claim. -/
def c6Route : StringRoute :=
  { path := str "/x", usesURLParameters := false, urlParameterRegex := none, handlerId := 2 }

/-- Context after registering the route slash for GET with handler 1. -/
def c8Ctx1 : RouteContext := exceptCtx (routeContextRoute {} (str "/") (str "GET") 1)

/-- Context after registering the same route slash for GET a second time,
with handler 2. -/
def c8Ctx2 : RouteContext := exceptCtx (routeContextRoute c8Ctx1 (str "/") (str "GET") 2)

/-- Context after a single registration, used to witness the registration
theorem. -/
def c8WCtx : RouteContext := exceptCtx (routeContextRoute {} (str "/a") (str "GET") 5)

end Aqua

namespace Aqua

/-- Lowercasing of the Set-Cookie header name. -/
theorem lowerStr_setCookie : lowerStr (str "Set-Cookie") = str "set-cookie" := by decide

/-- Appending one Set-Cookie header per cookie is list concatenation: no
earlier header is removed or replaced. -/
theorem headers_cookie_fold (cookies : List (Str × Str)) (hs : List (Str × Str)) :
    cookies.foldl (fun h nv => headersAppend h (str "Set-Cookie") (nv.1 ++ str "=" ++ nv.2)) hs
      = hs ++ cookies.map (fun nv => (str "set-cookie", nv.1 ++ str "=" ++ nv.2)) := by
  induction cookies generalizing hs with
  | nil => simp
  | cons c cs ih =>
      simp only [List.foldl_cons, List.map_cons]
      rw [ih]
      simp [headersAppend, lowerStr_setCookie]

/-- Find after an in-place update of an existing key. -/
theorem find_map_upsert {V : Type} (k : Str) (v : V) (o : List (Str × V))
    (h : o.any (fun kv => kv.1 == k) = true) :
    (o.map (fun kv => if kv.1 == k then (k, v) else kv)).find? (fun kv => kv.1 == k)
      = some (k, v) := by
  induction o with
  | nil => simp at h
  | cons a o ih =>
      simp only [List.map_cons]
      by_cases ha : (a.1 == k) = true
      · rw [if_pos ha]
        rw [List.find?_cons_of_pos]
        exact beq_self_eq_true k
      · have ha' : (a.1 == k) = false := Bool.eq_false_iff.mpr ha
        have h' : o.any (fun kv => kv.1 == k) = true := by
          simpa [List.any_cons, ha'] using h
        rw [if_neg ha]
        rw [List.find?_cons_of_neg]
        · exact ih h'
        · simp [ha']

/-- Find after appending a fresh key. -/
theorem find_append_new {V : Type} (k : Str) (v : V) (o : List (Str × V))
    (h : o.any (fun kv => kv.1 == k) = false) :
    (o ++ [(k, v)]).find? (fun kv => kv.1 == k) = some (k, v) := by
  induction o with
  | nil =>
      simp only [List.nil_append]
      rw [List.find?_cons_of_pos]
      exact beq_self_eq_true k
  | cons a o ih =>
      have ha : (a.1 == k) = false := by
        by_cases hc : (a.1 == k) = true
        · simp [List.any_cons, hc] at h
        · exact Bool.eq_false_iff.mpr hc
      have h' : o.any (fun kv => kv.1 == k) = false := by
        simpa [List.any_cons, ha] using h
      rw [List.cons_append]
      rw [List.find?_cons_of_neg]
      · exact ih h'
      · simp [ha]

/-- Assignment then lookup of the same key yields the assigned value. -/
theorem objGet_objUpsert_self {V : Type} (o : List (Str × V)) (k : Str) (v : V) :
    objGet (objUpsert o k v) k = some v := by
  unfold objGet objUpsert
  by_cases h : o.any (fun kv => kv.1 == k) = true
  · rw [if_pos h, find_map_upsert k v o h, Option.map_some']
  · have h' : o.any (fun kv => kv.1 == k) = false := Bool.eq_false_iff.mpr h
    rw [if_neg h, find_append_new k v o h', Option.map_some']

/-- Updating an existing key leaves the key list unchanged. -/
theorem objUpsert_keys_of_mem {V : Type} (k : Str) (v : V) (o : List (Str × V))
    (h : o.any (fun kv => kv.1 == k) = true) :
    (objUpsert o k v).map Prod.fst = o.map Prod.fst := by
  unfold objUpsert
  rw [if_pos h, List.map_map]
  apply List.map_congr_left
  intro kv _
  by_cases hk : (kv.1 == k) = true
  · have hke : kv.1 = k := beq_iff_eq.mp hk
    simp [Function.comp, hke]
  · have hne : ¬ kv.1 = k := fun hc => hk (by simp [hc])
    simp [Function.comp, hne]

/-- Assignment preserves key-list uniqueness. -/
theorem objUpsert_nodup_keys {V : Type} (o : List (Str × V)) (k : Str) (v : V)
    (h : (o.map Prod.fst).Nodup) : ((objUpsert o k v).map Prod.fst).Nodup := by
  by_cases hm : o.any (fun kv => kv.1 == k) = true
  · rw [objUpsert_keys_of_mem k v o hm]; exact h
  · have hm' : o.any (fun kv => kv.1 == k) = false := Bool.eq_false_iff.mpr hm
    unfold objUpsert
    rw [if_neg hm, List.map_append]
    have hk : k ∉ o.map Prod.fst := by
      intro hkmem
      rcases List.mem_map.mp hkmem with ⟨kv, hkv, hfst⟩
      have hb : (kv.1 == k) = true := by rw [hfst]; exact beq_self_eq_true k
      have hcontra := List.any_eq_false.mp hm' kv hkv
      simp_all
    simp [List.nodup_append, h, hk]

/-- A key absent from the key list filters to the empty list. -/
theorem filter_key_nil {V : Type} (k : Str) (o : List (Str × V))
    (h : k ∉ o.map Prod.fst) : o.filter (fun kv => kv.1 == k) = [] := by
  induction o with
  | nil => rfl
  | cons a o ih =>
      have ha : a.1 ≠ k := fun hc => h (by simp [hc])
      have ha' : (a.1 == k) = false := by simpa using ha
      have h' : k ∉ o.map Prod.fst := fun hc => h (by simp [hc])
      simp only [List.filter_cons, ha', Bool.false_eq_true, if_false]
      exact ih h'

/-- Tables with pairwise distinct keys hold at most one entry per key. -/
theorem nodup_key_filter_len {V : Type} (k : Str) (o : List (Str × V))
    (h : (o.map Prod.fst).Nodup) :
    (o.filter (fun kv => kv.1 == k)).length ≤ 1 := by
  induction o with
  | nil => simp
  | cons a o ih =>
      simp only [List.map_cons, List.nodup_cons] at h
      by_cases ha : (a.1 == k) = true
      · have hak : a.1 = k := beq_iff_eq.mp ha
        have hnil : o.filter (fun kv => kv.1 == k) = [] := by
          apply filter_key_nil
          rw [← hak]; exact h.1
        simp only [List.filter_cons, ha, if_true, hnil]
        simp
      · have ha' : (a.1 == k) = false := Bool.eq_false_iff.mpr ha
        simp only [List.filter_cons, ha', Bool.false_eq_true, if_false]
        exact ih h.2

end Aqua

namespace Aqua

/-- Splitting never returns the empty list. -/
theorem jsSplitAux_ne_nil (sep : Str) (f : Nat) (e : Str) : jsSplitAux sep f e ≠ [] := by
  cases f with
  | zero => simp [jsSplitAux]
  | succ f' =>
      unfold jsSplitAux
      cases hsf : strFind sep e <;> simp

/-- With a non-empty separator, a found occurrence forces a non-empty input. -/
theorem strFind_ne_nil (sep : Str) (hsep : sep ≠ []) (i : Nat)
    (h : strFind sep [] = some i) : False := by
  unfold strFind at h
  have : sep.isEmpty = false := by
    cases sep with
    | nil => exact absurd rfl hsep
    | cons a s => rfl
  simp [this] at h

/-- Any sufficient fuel computes the same split. -/
theorem jsSplitAux_fuel (sep : Str) (hsep : sep ≠ []) :
    ∀ f e, e.length + 1 ≤ f → jsSplitAux sep f e = jsSplitOnStr sep e := by
  intro f
  induction f using Nat.strong_induction_on with
  | _ f ih =>
    intro e hf
    match f, hf with
    | f' + 1, hf =>
      unfold jsSplitOnStr
      cases hsf : strFind sep e with
      | none => simp [jsSplitAux, hsf]
      | some i =>
        have hene : e ≠ [] := by
          intro hnil
          subst hnil
          exact strFind_ne_nil sep hsep i hsf
        have hlen : 1 ≤ e.length := by
          cases e with
          | nil => exact absurd rfl hene
          | cons a t => simp
        have hseplen : 1 ≤ sep.length := by
          cases sep with
          | nil => exact absurd rfl hsep
          | cons a t => simp
        have hdlen : (e.drop (i + sep.length)).length + 1 ≤ e.length := by
          rw [List.length_drop]
          omega
        simp only [jsSplitAux, hsf]
        congr 1
        rw [ih f' (by omega) _ (by omega)]
        exact (ih e.length (by omega) _ hdlen).symm

/-- One-step unfolding of the split. -/
theorem jsSplitOnStr_unfold (sep : Str) (hsep : sep ≠ []) (e : Str) :
    jsSplitOnStr sep e =
      (match strFind sep e with
       | none => [e]
       | some i => e.take i :: jsSplitOnStr sep (e.drop (i + sep.length))) := by
  conv_lhs => rw [show jsSplitOnStr sep e = jsSplitAux sep (e.length + 1) e from rfl]
  cases hsf : strFind sep e with
  | none => simp [jsSplitAux, hsf]
  | some i =>
      have hene : e ≠ [] := by
        intro hnil
        subst hnil
        exact strFind_ne_nil sep hsep i hsf
      have hlen : 1 ≤ e.length := by
        cases e with
        | nil => exact absurd rfl hene
        | cons a t => simp
      have hseplen : 1 ≤ sep.length := by
        cases sep with
        | nil => exact absurd rfl hsep
        | cons a t => simp
      have hdlen : (e.drop (i + sep.length)).length + 1 ≤ e.length := by
        rw [List.length_drop]
        omega
      simp only [jsSplitAux, hsf]
      rw [jsSplitAux_fuel sep hsep e.length _ hdlen]

/-- Behaviour of the literal single-character find with respect to takeWhile,
dropWhile and any. -/
theorem strFind_char_spec (c : Char) (e : Str) :
    (strFind [c] e = none →
       e.takeWhile (fun x => x != c) = e ∧ e.any (fun x => x == c) = false) ∧
    (∀ i, strFind [c] e = some i →
       e.take i = e.takeWhile (fun x => x != c) ∧
       e.drop (i + 1) = (e.dropWhile (fun x => x != c)).drop 1 ∧
       e.any (fun x => x == c) = true) := by
  induction e with
  | nil =>
      constructor
      · intro _; simp
      · intro i h
        exact absurd h (by simp [strFind])
  | cons x e ih =>
      have hpref : [c].isPrefixOf (x :: e) = (c == x) := by
        simp [List.isPrefixOf]
      constructor
      · intro h
        unfold strFind at h
        by_cases hcx : (c == x) = true
        · rw [hpref] at h
          simp [hcx] at h
        · have hcx' : (c == x) = false := Bool.eq_false_iff.mpr hcx
          rw [hpref] at h
          simp only [hcx', Bool.false_eq_true, if_false] at h
          have hrec : strFind [c] e = none := by
            cases hr : strFind [c] e with
            | none => rfl
            | some j => rw [hr] at h; simp at h
          have hxc : (x == c) = false := by
            have : ¬ x = c := fun hxe => hcx (by simp [hxe])
            simpa using this
          have hxne : (x != c) = true := by simp [bne, hxc]
          rcases (ih.1 hrec) with ⟨h1, h2⟩
          refine ⟨?_, ?_⟩
          · simp [List.takeWhile_cons, hxne, h1]
          · simp [List.any_cons, hxc, h2]
      · intro i h
        unfold strFind at h
        by_cases hcx : (c == x) = true
        · rw [hpref] at h
          simp only [hcx, if_true] at h
          have hi : i = 0 := by
            cases h; rfl
          subst hi
          have hxc : (x == c) = true := by
            have : x = c := (beq_iff_eq.mp hcx).symm
            simp [this]
          have hxne : (x != c) = false := by simp [bne, hxc]
          refine ⟨?_, ?_, ?_⟩
          · simp [List.takeWhile_cons, hxne]
          · simp [List.dropWhile_cons, hxne]
          · simp [List.any_cons, hxc]
        · have hcx' : (c == x) = false := Bool.eq_false_iff.mpr hcx
          rw [hpref] at h
          simp only [hcx', Bool.false_eq_true, if_false] at h
          cases hr : strFind [c] e with
          | none => rw [hr] at h; simp at h
          | some j =>
              rw [hr] at h
              simp only [Option.map_some'] at h
              have hij : i = j + 1 := by
                cases h; rfl
              subst hij
              have hxc : (x == c) = false := by
                have : ¬ x = c := fun hxe => hcx (by simp [hxe])
                simpa using this
              have hxne : (x != c) = true := by simp [bne, hxc]
              rcases (ih.2 j hr) with ⟨h1, h2, h3⟩
              refine ⟨?_, ?_, ?_⟩
              · simp [List.take_cons, List.takeWhile_cons, hxne, h1]
              · simpa [List.dropWhile_cons, hxne] using h2
              · simp [List.any_cons, h3]

end Aqua

namespace Aqua

/-- Generic foldl congruence for pointwise-equal step functions. -/
theorem foldl_fun_congr {α β : Type} (f g : β → α → β) (h : ∀ acc x, f acc x = g acc x) :
    ∀ (l : List α) (init : β), l.foldl f init = l.foldl g init := by
  intro l
  induction l with
  | nil => intro init; rfl
  | cons a l ih =>
      intro init
      simp only [List.foldl_cons, h init a, ih]

/-- First and second fields of the equals-sign split of a cookie entry: the
first field is the text before the first equals sign, the second the text
between the first equals sign and the next one or the end. -/
theorem split_eq_fields (e : Str) :
    (jsSplitOnStr (str "=") e).headD [] = e.takeWhile (fun x => x != '=') ∧
    (jsSplitOnStr (str "=") e).get? 1 =
      (if e.any (fun x => x == '=') then
        some (((e.dropWhile (fun x => x != '=')).drop 1).takeWhile (fun x => x != '='))
      else none) := by
  have hsep : (str "=") ≠ [] := by decide
  have hedge : str "=" = ['='] := rfl
  have hlen1 : (str "=").length = 1 := rfl
  rw [jsSplitOnStr_unfold _ hsep e]
  cases hsf : strFind (str "=") e with
  | none =>
      have hsf' : strFind ['='] e = none := by rw [← hedge]; exact hsf
      rcases (strFind_char_spec '=' e).1 hsf' with ⟨h1, h2⟩
      constructor
      · simpa using h1.symm
      · simp [List.get?, h2]
  | some i =>
      have hsf' : strFind ['='] e = some i := by rw [← hedge]; exact hsf
      rcases (strFind_char_spec '=' e).2 i hsf' with ⟨h1, h2, h3⟩
      have hdrop : (e.dropWhile (fun x => x != '=')).drop 1 = e.drop (i + (str "=").length) := by
        rw [hlen1]
        exact h2.symm
      constructor
      · simpa using h1
      · simp only [h3, if_true, hdrop, List.get?]
        rw [jsSplitOnStr_unfold _ hsep (e.drop (i + (str "=").length))]
        cases hsf2 : strFind (str "=") (e.drop (i + (str "=").length)) with
        | none =>
            have hsf2' : strFind ['='] (e.drop (i + (str "=").length)) = none := by
              rw [← hedge]; exact hsf2
            rcases (strFind_char_spec '=' (e.drop (i + (str "=").length))).1 hsf2' with ⟨g1, g2⟩
            simp [List.get?, g1]
        | some j =>
            have hsf2' : strFind ['='] (e.drop (i + (str "=").length)) = some j := by
              rw [← hedge]; exact hsf2
            rcases (strFind_char_spec '=' (e.drop (i + (str "=").length))).2 j hsf2' with ⟨g1, g2, g3⟩
            simp [List.get?, g1]

/-- Every fold step of parseCookies agrees with the amended spec's fold
step. -/
theorem parseCookies_entry_step (cookies : List (Str × Option Str)) (cookie : Str) :
    objUpsert cookies (jsTrimStart ((jsSplitOnStr (str "=") cookie).headD []))
        ((jsSplitOnStr (str "=") cookie).get? 1)
      = objUpsert cookies (cookieEntryName cookie) (cookieEntryValue cookie) := by
  rcases split_eq_fields cookie with ⟨h1, h2⟩
  rw [h1, h2]
  rfl

end Aqua

namespace Aqua

/-- C1 (amended): route lookup for a request's method and path proceeds in
strict precedence order.  The Exact stage is tried first through the
method-prefixed key, so a registered Exact route always receives a request
with identical method and path regardless of the registration order of
other route kinds; if no Exact route matches, the first matching
Parameterized route is used, then the first matching Regex route; the
registered method restricts only the Exact stage and the Static stage
(which is reached only for GET requests): the Parameterized and Regex
stages consider routes of every method.  When no stage matches, the
dispatcher returns nothing and the caller invokes the fallback. -/
theorem c1_route_lookup_precedence (ctx : RouteContext) (method requestedPath : Str) :
    (∀ r, objGet ctx.routes (method ++ requestedPath) = some r →
       handleRequestWithContext ctx method requestedPath = some (.exact r)) ∧
    (objGet ctx.routes (method ++ requestedPath) = none →
       ∀ r, findRouteWithMatchingURLParameters ctx.routes requestedPath = some r →
         handleRequestWithContext ctx method requestedPath = some (.param r)) ∧
    (objGet ctx.routes (method ++ requestedPath) = none →
       findRouteWithMatchingURLParameters ctx.routes requestedPath = none →
       ∀ r, findMatchingRegexRoute ctx.regexRoutes requestedPath = some r →
         handleRequestWithContext ctx method requestedPath = some (.regex r)) ∧
    (objGet ctx.routes (method ++ requestedPath) = none →
       findRouteWithMatchingURLParameters ctx.routes requestedPath = none →
       findMatchingRegexRoute ctx.regexRoutes requestedPath = none →
       method = str "GET" →
       handleRequestWithContext ctx method requestedPath =
         (findMatchingStaticRoute ctx.staticRoutes requestedPath).map .static) ∧
    (objGet ctx.routes (method ++ requestedPath) = none →
       findRouteWithMatchingURLParameters ctx.routes requestedPath = none →
       findMatchingRegexRoute ctx.regexRoutes requestedPath = none →
       method ≠ str "GET" →
       handleRequestWithContext ctx method requestedPath = none) := by
  refine ⟨?_, ?_, ?_, ?_, ?_⟩
  · intro r h
    simp [handleRequestWithContext, h]
  · intro h1 r h2
    simp [handleRequestWithContext, h1, h2]
  · intro h1 h2 r h3
    simp [handleRequestWithContext, h1, h2, h3]
  · intro h1 h2 h3 h4
    subst h4
    simp [handleRequestWithContext, h1, h2, h3]
  · intro h1 h2 h3 h4
    simp [handleRequestWithContext, h1, h2, h3, h4]

/-- C1 counterexample: a context whose only registered route is the
parameterized route /hello/:name registered for method POST still matches a
GET request for /hello/world at the parameterized stage, refuting the claim
that only routes registered for the request's method are considered at
every stage. -/
theorem c1_method_scoping_counterexample :
    c1PostParamCtx.routes.map Prod.fst = [str "POST/hello/:name"] ∧
    (handleRequestWithContext c1PostParamCtx (str "GET") (str "/hello/world")).map
      (fun d => (d.stage, d.handlerId)) = some (1, 7) := by
  constructor
  · decide
  · decide

/-- C1 witness: the precedence theorem applied to a context with one exact
GET route, resolving an exact hit and a total miss. -/
theorem c1_route_lookup_precedence_witness :
    handleRequestWithContext c1WCtx (str "GET") (str "/hi") = some (.exact c1WRoute) ∧
    handleRequestWithContext c1WCtx (str "PUT") (str "/nowhere") = none := by
  constructor
  · exact (c1_route_lookup_precedence c1WCtx (str "GET") (str "/hi")).1 c1WRoute rfl
  · exact (c1_route_lookup_precedence c1WCtx (str "PUT") (str "/nowhere")).2.2.2.2
      rfl rfl rfl (by decide)

/-- C2: evaluation of the code at the failing input of the parameter-map
claim.  For the template /api/:action/:action2/:testtest and the requested
path /api/hello/world/world2 the compiled matcher leaves zero remainder and
all segments are non-empty, yet connectURLParameters binds testtest to the
empty string instead of world2, so respondToRequest sends the request to
the fallback instead of the handler. -/
theorem c2_three_parameter_extraction :
    connectURLParameters c2Template (str "/api/hello/world/world2") =
      [(str "action", str "hello"), (str "action2", str "world"), (str "testtest", [])] ∧
    jsReplaceFirst (compileParamMatcher c2Template) [] (str "/api/hello/world/world2") = [] ∧
    respondToRequest c2Route true none (str "/api/hello/world/world2") = .fallback := by
  refine ⟨?_, ?_, ?_⟩ <;> decide

/-- C3: evaluation of the code at the failing input of the file-size claim.
The multipart file part named test carries the five bytes of hello, but the
extracted file entry holds hello followed by the carriage return and line
feed that precede the closing boundary, so its size is 7, not 5. -/
theorem c3_multipart_file_size :
    (objGet (parseBody c3FileBody).files (str "test")).map
      (fun f => (f.content, JsFile.size f)) = some (str "hello\r\n", 7) ∧
    (str "hello").length = 5 := by
  refine ⟨?_, ?_⟩ <;> decide

/-- Body-parsing facts of the claim that do hold on the code: the JSON,
URL-encoded and multipart-field forms of a test field all parse to the same
field map, and an empty or absent body yields two empty maps. -/
theorem parseBody_field_map_agreement :
    (parseBody c3JsonBody).body.asStrObj = some [(str "test", some (str "hello"))] ∧
    (parseBody c3UrlBody).body.asStrObj = some [(str "test", some (str "hello"))] ∧
    (parseBody c3FieldBody).body.asStrObj = some [(str "test", some (str "hello"))] ∧
    (parseBody []).body.asStrObj = some [] ∧ (parseBody []).files = [] ∧
    (parseBodyWithContentLength 0 c3JsonBody).body.asStrObj = some [] ∧
    (parseBodyWithContentLength 0 c3JsonBody).files = [] := by
  refine ⟨?_, ?_, ?_, ?_, ?_, ?_, ?_⟩ <;> decide

end Aqua

namespace Aqua

/-- C4: for every request with no matching route, the fallback machinery
produces the response: with no fallback handler configured the response is
exactly Not found with status 404; a configured fallback that returns
nothing yields the default 404 Not found; and a fallback returning a
structured response with truthy content and no status code has its content
carried through with the status defaulting to 404. -/
theorem c4_fallback_response (raw raw2 : RawResponse) (r : ResponseObj)
    (h1 : formatRawResponse raw = some r) (h2 : r.statusCode = none)
    (h3 : contentTruthy r.content = true) (h4 : formatRawResponse raw2 = none) :
    respondWithNoRouteFound none =
      { status := 404, headers := [], body := some (.text (str "Not found.")) } ∧
    (getFallbackHandlerResponse (some raw)).statusCode = some 404 ∧
    (getFallbackHandlerResponse (some raw)).content = r.content ∧
    getFallbackHandlerResponse (some raw2) =
      { statusCode := some 404, content := some (.text (str "Not found.")) } := by
  refine ⟨by decide, ?_, ?_, ?_⟩
  · simp only [getFallbackHandlerResponse, h1]
    by_cases hr : strTruthy r.redirect = true
    · simp [hr]
    · have hr' : strTruthy r.redirect = false := Bool.eq_false_iff.mpr hr
      simp [hr', h2, jsOrElseNat]
  · simp only [getFallbackHandlerResponse, h1]
    simp [h3]
  · simp only [getFallbackHandlerResponse, h4]

/-- C4 witness: the fallback theorem applied to a fallback handler that
returns a structured response carrying the content custom, and to one that
returns nothing. -/
theorem c4_fallback_response_witness :
    (getFallbackHandlerResponse
        (some (RawResponse.resp { content := some (.text (str "custom")) }))).statusCode
      = some 404 ∧
    (getFallbackHandlerResponse
        (some (RawResponse.resp { content := some (.text (str "custom")) }))).content
      = some (RawContent.text (str "custom")) ∧
    getFallbackHandlerResponse (some .nullish) =
      { statusCode := some 404, content := some (.text (str "Not found.")) } := by
  have h := c4_fallback_response (RawResponse.resp { content := some (.text (str "custom")) })
    .nullish { content := some (.text (str "custom")) } rfl rfl rfl rfl
  exact ⟨h.2.1, h.2.2.1, h.2.2.2⟩

end Aqua

/-- C5: every request yields exactly one terminal response: the listen
handler is total and its response is either the pipeline's ok value or, when
a step threw or rejected, a 500 response whose body is the stringified
error; a throwing step aborts the remaining steps with that error; a step
that calls end on its event short-circuits the remaining steps and the
current response is returned; and a request matching no route is answered
with the event's default 404 response. -/
theorem c5_single_response_pipeline (routes : List (Aqua.Str × List InternalAqua.Step))
    (method url : Aqua.Str) (ev : InternalAqua.Ev) :
    (∃ resp, InternalAqua.listenHandler routes method url ev = resp ∧
       ((∃ e, InternalAqua.handleRequest routes method url ev = .error e ∧
           resp = { status := 500, body := e }) ∨
        InternalAqua.handleRequest routes method url ev = .ok resp)) ∧
    (∀ s rest e, s ev = .threw e → InternalAqua.respond (s :: rest) ev = .error e) ∧
    (∀ s rest after r, s ev = .ret after r → after.hasCalledEnd = true →
       InternalAqua.respond (s :: rest) ev = .ok after.response) ∧
    (Aqua.objGet routes (method ++ Aqua.parseRequestPath url) = none →
       InternalAqua.listenHandler routes method url InternalAqua.createInternalEvent
         = InternalAqua.getDefaultResponse) := by
  refine ⟨?_, ?_, ?_, ?_⟩
  · cases h : InternalAqua.handleRequest routes method url ev with
    | ok resp =>
        refine ⟨resp, ?_, Or.inr rfl⟩
        simp [InternalAqua.listenHandler, h]
    | error e =>
        refine ⟨{ status := 500, body := e }, ?_, Or.inl ⟨e, rfl, rfl⟩⟩
        simp [InternalAqua.listenHandler, h]
  · intro s rest e hthrew
    simp [InternalAqua.respond, hthrew]
  · intro s rest after r hret hend
    simp [InternalAqua.respond, hret, hend]
  · intro hnone
    simp [InternalAqua.listenHandler, InternalAqua.handleRequest, hnone,
      InternalAqua.createInternalEvent]

/-- C5 witness: the pipeline theorem applied to a throwing step, to an
ending step followed by a throwing step that is skipped, and to a request
that matches no route. -/
theorem c5_single_response_pipeline_witness :
    InternalAqua.respond [InternalAqua.throwingStep] InternalAqua.createInternalEvent
      = .error (Aqua.str "boom") ∧
    InternalAqua.respond [InternalAqua.endingStep, InternalAqua.throwingStep]
        InternalAqua.createInternalEvent
      = .ok { status := 200, body := Aqua.str "done" } ∧
    InternalAqua.listenHandler InternalAqua.c5Routes (Aqua.str "POST") (Aqua.str "/none")
        InternalAqua.createInternalEvent = InternalAqua.getDefaultResponse := by
  refine ⟨?_, ?_, ?_⟩
  · exact (c5_single_response_pipeline InternalAqua.c5Routes (Aqua.str "GET") (Aqua.str "/x")
      InternalAqua.createInternalEvent).2.1 InternalAqua.throwingStep [] (Aqua.str "boom") rfl
  · exact (c5_single_response_pipeline InternalAqua.c5Routes (Aqua.str "GET") (Aqua.str "/x")
      InternalAqua.createInternalEvent).2.2.1 InternalAqua.endingStep [InternalAqua.throwingStep]
      { response := { status := 200, body := Aqua.str "done" }, hasCalledEnd := true } none rfl rfl
  · exact (c5_single_response_pipeline InternalAqua.c5Routes (Aqua.str "POST") (Aqua.str "/none")
      InternalAqua.createInternalEvent).2.2.2 rfl

namespace Aqua

/-- C6: evaluation of the code at the failing input of the schema claim.  A
schema whose single predicate returns a Promise that resolves to false is
treated as passing, because the synchronous validation loop tests the
truthiness of the returned Promise object instead of awaiting it, and the
request reaches the handler; a predicate synchronously returning false does
fail the validation. -/
theorem c6_async_predicate_not_awaited :
    validateSchema [[.promise false]] = true ∧
    respondToRequest c6Route false (some [[.promise false]]) (str "/x") = .handler [] ∧
    validateSchema [[.bool false]] = false := by
  refine ⟨?_, ?_, ?_⟩ <;> decide

end Aqua

namespace Aqua

/-- Lowercasing of the Location header name. -/
theorem lowerStr_location : lowerStr (str "Location") = str "location" := by decide

/-- C7: response normalization.  A string handler return is wrapped with the
text-html content type header, a byte buffer passes bare with no forced
content type, a structured object passes through unchanged; then, for every
response object, the finalized headers are the declared headers followed by
one appended Set-Cookie entry per cookie key (no prior header, including
prior Set-Cookie values, is removed or replaced) followed by an appended
Location header when a redirect is set; an unset status defaults to 301
with a redirect and to 200 otherwise, the body is the content, and the
fallback path carries status 404. -/
theorem c7_response_normalization (s b : Str) (res : ResponseObj) :
    formatRawResponse (.text s) =
      some { headers := [(str "Content-Type", str "text/html; charset=UTF-8")],
             content := some (.text s) } ∧
    formatRawResponse (.bytes b) = some { content := some (.bytes b) } ∧
    (∀ r, formatRawResponse (.resp r) = some r) ∧
    (convertResponseToServerResponse res).headers =
      headersOfInit res.headers
        ++ res.cookies.map (fun nv => (str "set-cookie", nv.1 ++ str "=" ++ nv.2))
        ++ (if strTruthy res.redirect = true then [(str "location", res.redirect.getD [])]
            else []) ∧
    (strTruthy res.redirect = true → res.statusCode = none →
       (convertResponseToServerResponse res).status = 301) ∧
    (strTruthy res.redirect = false → res.statusCode = none →
       (convertResponseToServerResponse res).status = 200) ∧
    (convertResponseToServerResponse res).body = res.content ∧
    (respondWithNoRouteFound none).status = 404 := by
  refine ⟨rfl, rfl, fun r => rfl, ?_, ?_, ?_, rfl, by decide⟩
  · unfold convertResponseToServerResponse
    dsimp only
    rw [headers_cookie_fold]
    by_cases hr : strTruthy res.redirect = true
    · simp [hr, headersAppend, lowerStr_location]
    · have hr' : strTruthy res.redirect = false := Bool.eq_false_iff.mpr hr
      simp [hr']
  · intro hr hsc
    unfold convertResponseToServerResponse
    simp [hr, hsc, jsOrElseNat]
  · intro hr hsc
    unfold convertResponseToServerResponse
    simp [hr, hsc, jsOrElseNat]

/-- C7 witness: the normalization theorem applied to a redirect response
with unset status, a plain content response with unset status, and a
response declaring a Set-Cookie header while also carrying two cookies. -/
theorem c7_response_normalization_witness :
    (convertResponseToServerResponse { redirect := some (str "/new") }).status = 301 ∧
    (convertResponseToServerResponse { content := some (.text (str "ok")) }).status = 200 ∧
    (convertResponseToServerResponse
        { headers := [(str "Set-Cookie", str "z=9")],
          cookies := [(str "a", str "1"), (str "b", str "2")] }).headers =
      [(str "set-cookie", str "z=9"), (str "set-cookie", str "a=1"),
       (str "set-cookie", str "b=2")] := by
  refine ⟨?_, ?_, ?_⟩
  · exact (c7_response_normalization [] [] { redirect := some (str "/new") }).2.2.2.2.1
      (by decide) rfl
  · exact (c7_response_normalization [] [] { content := some (.text (str "ok")) }).2.2.2.2.2.1
      (by decide) rfl
  · rw [(c7_response_normalization [] []
      { headers := [(str "Set-Cookie", str "z=9")],
        cookies := [(str "a", str "1"), (str "b", str "2")] }).2.2.2.1]
    decide

/-- C8 counterexample: registering the pair GET and the root path twice in
RouteContext.route raises no error and the second registration silently
takes effect: the single stored route now carries the second handler. -/
theorem c8_duplicate_registration_counterexample :
    routeContextRoute c8Ctx1 (str "/") (str "GET") 2 = .ok c8Ctx2 ∧
    (objGet c8Ctx2.routes (str "GET/")).map (fun r => r.handlerId) = some 2 ∧
    (objGet c8Ctx1.routes (str "GET/")).map (fun r => r.handlerId) = some 1 := by
  refine ⟨rfl, by decide, by decide⟩

/-- C8 (amended): the route table of RouteContext is keyed by the
concatenation of method and literal path, so within one method at most one
Exact route exists per literal path (registration preserves key uniqueness
and any key has at most one entry); however a duplicate registration in
RouteContext.route is not an error: it succeeds and silently replaces the
stored handler.  Only the earliest implementation, Aqua.route of
src/unnamed/part_004, rejects a duplicate registration with an error and
leaves the first registration in effect. -/
theorem c8_exact_route_registration (ctx ctx' : RouteContext) (path method : Str)
    (hId hId2 : Nat) (hnd : (ctx.routes.map Prod.fst).Nodup)
    (hreg : routeContextRoute ctx path method hId = .ok ctx') :
    (ctx'.routes.map Prod.fst).Nodup ∧
    (∀ k, (ctx'.routes.filter (fun kv => kv.1 == k)).length ≤ 1) ∧
    (∃ ctx2, routeContextRoute ctx' path method hId2 = .ok ctx2 ∧
       (objGet ctx2.routes (method ++ path)).map (fun r => r.handlerId) = some hId2) ∧
    (∀ routes cb cb0, objGet routes (method ++ path) = some cb0 →
       EarlyAqua.route routes path method cb = { routes := routes, errored := true }) := by
  unfold routeContextRoute at hreg
  by_cases hp : (!(str "/").isPrefixOf path) = true
  · rw [if_pos hp] at hreg
    exact absurd hreg (by simp)
  · have hp' : (!(str "/").isPrefixOf path) = false := Bool.eq_false_iff.mpr hp
    rw [if_neg hp] at hreg
    have hctx' : ctx' = { ctx with
        routes := objUpsert ctx.routes (method ++ path)
          { path := path
            usesURLParameters := jsTest paramAlphaTestPat path
            urlParameterRegex :=
              if jsTest paramAlphaTestPat path then some (compileParamMatcher path) else none
            handlerId := hId } } := by
      cases hreg
      rfl
    have hnd' : (ctx'.routes.map Prod.fst).Nodup := by
      rw [hctx']
      exact objUpsert_nodup_keys ctx.routes _ _ hnd
    refine ⟨hnd', ?_, ?_, ?_⟩
    · intro k
      exact nodup_key_filter_len k ctx'.routes hnd'
    · refine ⟨?_, ?_, ?_⟩
      · exact { ctx' with
          routes := objUpsert ctx'.routes (method ++ path)
            { path := path
              usesURLParameters := jsTest paramAlphaTestPat path
              urlParameterRegex :=
                if jsTest paramAlphaTestPat path then some (compileParamMatcher path) else none
              handlerId := hId2 } }
      · unfold routeContextRoute
        rw [if_neg hp]
      · simp [objGet_objUpsert_self]
    · intro routes cb cb0 hdup
      unfold EarlyAqua.route
      rw [if_neg hp, hdup]
      simp

/-- C8 witness: the registration theorem applied to an empty context and the
path slash-a for GET. -/
theorem c8_exact_route_registration_witness :
    (∃ ctx2, routeContextRoute c8WCtx (str "/a") (str "GET") 6 = .ok ctx2 ∧
       (objGet ctx2.routes (str "GET" ++ str "/a")).map (fun r => r.handlerId) = some 6) ∧
    EarlyAqua.route [(str "GET/a", 9)] (str "/a") (str "GET") 5 =
      { routes := [(str "GET/a", 9)], errored := true } := by
  have h := c8_exact_route_registration {} c8WCtx (str "/a") (str "GET") 5 6 (by simp) rfl
  exact ⟨h.2.2.1, h.2.2.2 [(str "GET/a", 9)] 5 9 rfl⟩

/-- C9 counterexample: for the cookie header entry x equals one equals two,
parseCookies binds x to the text between the first and second equals sign,
not to everything after the first equals sign as the claim states. -/
theorem c9_cookie_value_counterexample :
    objGet (parseCookies (some (str "x=1=2"))) (str "x") = some (some (str "1")) ∧
    some (some (str "1")) ≠ some (some (str "1=2")) := by
  refine ⟨by decide, by decide⟩

/-- C9 (amended): parseCookies maps a cookie header string to a map by
splitting on semicolons, trimming leading whitespace from each name (the
text before the entry's first equals sign), and binding it to the text
between the first equals sign and the next equals sign or the end of the
entry (the second field of the equals split; undefined when the entry has
no equals sign), never percent-decoding values; an absent cookie header
yields an empty map rather than an error. -/
theorem c9_parse_cookies_amended (s : Str) (hs : s ≠ []) :
    parseCookies (some s) = cookieMapSpec s ∧ parseCookies none = [] := by
  constructor
  · have hie : s.isEmpty = false := by
      cases s with
      | nil => exact absurd rfl hs
      | cons a t => rfl
    unfold parseCookies cookieMapSpec
    simp only [hie, Bool.false_eq_true, if_false]
    exact foldl_fun_congr _ _ (fun acc e => parseCookies_entry_step acc e) _ []
  · rfl

/-- C9 witness: the amended cookie theorem applied to a two-entry header. -/
theorem c9_parse_cookies_amended_witness :
    parseCookies (some (str "a=1; b=2")) = cookieMapSpec (str "a=1; b=2") ∧
    parseCookies none = [] :=
  c9_parse_cookies_amended (str "a=1; b=2") (by decide)

/-- C10: the cookies map of an inbound request is populated by parsing the
cookie header, but only when the request also carries a truthy header
literally named cookies; a request whose headers contain no entry named
cookies, even one carrying a standard Cookie header, always reaches
handlers with an empty cookies map. -/
theorem c10_cookies_header_gate (headers h2 : List (Str × Str))
    (hno : headersGet headers (str "cookies") = none)
    (hyes : strTruthy (headersGet h2 (str "cookies")) = true) :
    requestCookies headers = [] ∧
    requestCookies h2 = parseCookies (headersGet h2 (str "cookie")) := by
  constructor
  · simp [requestCookies, hno, strTruthy]
  · simp [requestCookies, hyes]

/-- C10 witness: the cookies-gate theorem applied to a request carrying only
a standard Cookie header, and to one carrying both a cookie and a cookies
header. -/
theorem c10_cookies_header_gate_witness :
    requestCookies (headersOfInit [(str "Cookie", str "a=1")]) = [] ∧
    requestCookies (headersOfInit [(str "cookie", str "a=1"), (str "cookies", str "x")]) =
      parseCookies (headersGet
        (headersOfInit [(str "cookie", str "a=1"), (str "cookies", str "x")]) (str "cookie")) := by
  have h := c10_cookies_header_gate (headersOfInit [(str "Cookie", str "a=1")])
    (headersOfInit [(str "cookie", str "a=1"), (str "cookies", str "x")])
    (by decide) (by decide)
  exact ⟨h.1, h.2⟩

end Aqua
